import Mathlib

/-!
Verification development for the multi-stage, fact-grounded report pipeline
of the gemmanotebook repository.  Strings are modelled as `List Char`
(JavaScript strings are sequences of code units; all inputs of interest here
stay inside the BMP, where one code unit is one character).  JavaScript
numbers appearing in scores and progress values are modelled as exact
rationals (`ℚ`); the constants involved (0.7, 0.1, 0.05, 0.01, thresholds)
are used far from floating-point rounding boundaries in every statement
below, and the multiplication `maxSize * 0.7` is modelled by the exact
comparison `10 * breakPoint > 10 * start + 7 * maxSize` (for the pipeline's
actual `maxSize = 500`, `500 * 0.7` is exactly `350.0` in double precision,
so the model agrees with the source there).
-/

namespace GemmaNotebook

/-- Shorthand turning a Lean string literal into the `List Char` model. -/
def strL (s : String) : List Char := s.data

/-- The Korean-script character test of `BaseAgent.containsKorean`:
membership in the Unicode ranges 1100–11FF, 3130–318F, A960–A97F,
AC00–D7AF, D7B0–D7FF. -/
def isKoreanChar (c : Char) : Bool :=
  (0x1100 ≤ c.toNat && c.toNat ≤ 0x11FF) ||
  (0x3130 ≤ c.toNat && c.toNat ≤ 0x318F) ||
  (0xA960 ≤ c.toNat && c.toNat ≤ 0xA97F) ||
  (0xAC00 ≤ c.toNat && c.toNat ≤ 0xD7AF) ||
  (0xD7B0 ≤ c.toNat && c.toNat ≤ 0xD7FF)

/-- `BaseAgent.containsKorean` / `MultiTurnReportGenerator.containsKorean`:
the regex test for any Korean-script character. -/
def containsKorean (s : List Char) : Bool := s.any isKoreanChar

/-- JavaScript whitespace (the characters recognised by `String.trim` and
`\s` that occur in this code base's data). -/
def isJsWs (c : Char) : Bool :=
  c == ' ' || c == '\t' || c == '\n' || c == '\r' ||
  c == '\x0b' || c == '\x0c' || c == ' '

/-- JavaScript `String.prototype.trim`: drop whitespace from both ends. -/
def jsTrim (s : List Char) : List Char :=
  ((s.dropWhile isJsWs).reverse.dropWhile isJsWs).reverse

/-- Does the second list start with the first (character-exact)? -/
def leadsWith : List Char → List Char → Bool
  | [], _ => true
  | _ :: _, [] => false
  | a :: as, b :: bs => a == b && leadsWith as bs

/-- JavaScript `String.prototype.includes`: substring occurrence. -/
def occursIn (pat : List Char) : List Char → Bool
  | [] => leadsWith pat []
  | c :: rest => leadsWith pat (c :: rest) || occursIn pat rest

/-- Character-wise lowercasing (`String.prototype.toLowerCase`; the data in
every statement below is ASCII or Korean, on which ASCII lowercasing agrees
with the JavaScript function). -/
def lowerL (s : List Char) : List Char := s.map Char.toLower

/-- `MultiTurnReportGenerator.shouldUseMultiTurn`: the activation gate for
the multi-stage pipeline. -/
def shouldUseMultiTurn (instruction referenceText : List Char) : Bool :=
  let isKorean := containsKorean instruction
  let isReportRequest :=
    occursIn (strL "리포트") instruction ||
    occursIn (strL "보고서") instruction ||
    occursIn (strL "초안") instruction ||
    occursIn (strL "작성") instruction
  let hasLargeReference : Bool := referenceText.length > 800
  let hasReference : Bool := (jsTrim referenceText).length > 0
  isKorean && isReportRequest && hasLargeReference && hasReference

/-- The `KeyFacts` record of `BaseAgent.ts`: one atomic fact with an
optional post-hoc relevance score. -/
structure KeyFacts where
  subject : List Char
  action : List Char
  details : List Char
  relevanceScore : Option ℚ := none
  deriving DecidableEq, Repr

/-- The `ReportSection` record of `BaseAgent.ts`. -/
structure ReportSection where
  title : List Char
  content : List Char
  facts : List KeyFacts
  deriving DecidableEq, Repr

/-- The `ReportOutline` record of `ContentWriter`. -/
structure ReportOutline where
  title : List Char
  sections : List (List Char)
  deriving DecidableEq, Repr

/-- Levenshtein edit distance, the function computed by the dynamic-
programming matrix of `ReferenceProcessor.levenshteinDistance` (the matrix
fills the standard prefix recurrence; this is the same function written as
the equivalent recursion). -/
def levenshteinDistance : List Char → List Char → Nat
  | [], ys => ys.length
  | x :: xs, [] => (x :: xs).length
  | x :: xs, y :: ys =>
    if x = y then levenshteinDistance xs ys
    else 1 + min (levenshteinDistance xs ys)
           (min (levenshteinDistance (x :: xs) ys) (levenshteinDistance xs (y :: ys)))
  termination_by xs ys => xs.length + ys.length

/-- `ReferenceProcessor.calculateStringSimilarity`: normalized edit-distance
similarity, `(longer - editDistance) / longer`, and `1.0` when both strings
are empty. -/
def calculateStringSimilarity (str1 str2 : List Char) : ℚ :=
  let longer := if str1.length > str2.length then str1 else str2
  let shorter := if str1.length > str2.length then str2 else str1
  if longer.length = 0 then 1
  else ((longer.length : ℚ) - levenshteinDistance longer shorter) / longer.length

/-- `ReferenceProcessor.areFactsSimilar`: subjects more than 70 % similar. -/
def areFactsSimilar (fact1 fact2 : KeyFacts) : Bool :=
  calculateStringSimilarity (lowerL fact1.subject) (lowerL fact2.subject) > 7/10

/-- `ReferenceProcessor.calculateRelevanceScore`: detail length · 0.1, plus 5
for a digit in the details, plus 3 for a capitalised-word pattern in the
subject, plus subject length · 0.05. -/
def calculateRelevanceScore (fact : KeyFacts) : ℚ :=
  (fact.details.length : ℚ) * (1/10) +
  (if fact.details.any Char.isDigit then 5 else 0) +
  (if hasCapitalizedPattern fact.subject then 3 else 0) +
  (fact.subject.length : ℚ) * (1/20)
where
  /-- The `/[A-Z][a-z]/` test: some uppercase ASCII letter immediately
  followed by a lowercase ASCII letter. -/
  hasCapitalizedPattern : List Char → Bool
    | [] => false
    | [_] => false
    | a :: b :: rest =>
      (('A' ≤ a && a ≤ 'Z') && ('a' ≤ b && b ≤ 'z')) ||
        hasCapitalizedPattern (b :: rest)

/-- The deduplication walk inside `ReferenceProcessor.deduplicateAndRankFacts`:
`uniqueFacts` grows left to right; a fact is dropped when it is similar to
any already-accepted fact (first-seen instance wins). -/
def dedupAux (sim : KeyFacts → KeyFacts → Bool) :
    List KeyFacts → List KeyFacts → List KeyFacts
  | acc, [] => acc
  | acc, fact :: rest =>
    if acc.any (fun existing => sim fact existing) then dedupAux sim acc rest
    else dedupAux sim (acc ++ [fact]) rest

/-- The deduplication pass of `deduplicateAndRankFacts` with the source's
similarity predicate. -/
def dedupFacts (facts : List KeyFacts) : List KeyFacts :=
  dedupAux areFactsSimilar [] facts

/-- Stable insertion (descending by key, earlier element first on ties):
the behaviour of JavaScript's stable `Array.prototype.sort` with the
comparator `(b.relevanceScore || 0) - (a.relevanceScore || 0)`. -/
def insertDesc (key : KeyFacts → ℚ) (x : KeyFacts) : List KeyFacts → List KeyFacts
  | [] => [x]
  | y :: ys => if key y ≤ key x then x :: y :: ys else y :: insertDesc key x ys

/-- Stable sort, descending by key. -/
def sortDesc (key : KeyFacts → ℚ) : List KeyFacts → List KeyFacts
  | [] => []
  | x :: xs => insertDesc key x (sortDesc key xs)

/-- The relevance key used by both sorts: `fact.relevanceScore || 0`. -/
def scoreKey (fact : KeyFacts) : ℚ := fact.relevanceScore.getD 0

/-- `ReferenceProcessor.deduplicateAndRankFacts`: dedup by subject
similarity, attach `calculateRelevanceScore` to a copy of each survivor,
sort descending by that score, keep the top 10. -/
def deduplicateAndRankFacts (facts : List KeyFacts) : List KeyFacts :=
  (sortDesc scoreKey
    ((dedupFacts facts).map fun fact =>
      { fact with relevanceScore := some (calculateRelevanceScore fact) })).take 10

/-- JavaScript `String.prototype.substring`: clamp both indices into
`[0, length]` and swap them when out of order. -/
def jsSubstring (s : List Char) (a b : Int) : List Char :=
  let n : Int := s.length
  let a' := min (max a 0) n
  let b' := min (max b 0) n
  ((s.take (max a' b').toNat).drop (min a' b').toNat)

/-- JavaScript `String.prototype.lastIndexOf` for a single character:
index of the last occurrence, `-1` when absent. -/
def lastIndexOfC (s : List Char) (c : Char) : Int :=
  match s.reverse.findIdx? (· == c) with
  | some k => (s.length : Int) - 1 - k
  | none => -1

/-- The loop-local `end` of `BaseAgent.chunkText`:
`Math.min(start + maxSize, text.length)`. -/
def stopAt (text : List Char) (maxSize : Nat) (start : Int) : Int :=
  min (start + maxSize) (text.length : Int)

/-- The loop-local `breakPoint` of `BaseAgent.chunkText`:
`Math.max(chunk.lastIndexOf('.'), chunk.lastIndexOf('\n'))`, an index
relative to the current chunk. -/
def breakPointAt (text : List Char) (maxSize : Nat) (start : Int) : Int :=
  let chunk := jsSubstring text start (stopAt text maxSize start)
  max (lastIndexOfC chunk '.') (lastIndexOfC chunk '\n')

/-- The `while` loop of `BaseAgent.chunkText`, with an explicit fuel bound
(the source loop has no bound; `none` means the loop made more iterations
than the fuel allows).  `start` is an `Int` because the source's `start` can
go negative (`breakPoint + 1 - overlap`).  Each pushed chunk is recorded as
its index span; the chunk string is `jsSubstring text span.1 span.2`.  The
source's `breakPoint` is `chunk.lastIndexOf(...)`, an index relative to the
chunk, and the source uses it directly as an absolute position in
`text.substring` and in the next `start` — this embedding reproduces that
faithfully.  The float comparison `breakPoint > start + maxSize * 0.7` is
modelled exactly as the rational comparison
`10 * breakPoint > 10 * start + 7 * maxSize`. -/
def chunkSpansF (text : List Char) (maxSize overlap : Nat) :
    Nat → Int → List (Int × Int) → Option (List (Int × Int))
  | 0, _, _ => none
  | fuel + 1, start, acc =>
    if start < (text.length : Int) then
      if stopAt text maxSize start < (text.length : Int) then
        if 10 * breakPointAt text maxSize start > 10 * start + 7 * (maxSize : Int) then
          chunkSpansF text maxSize overlap fuel
            (breakPointAt text maxSize start + 1 - overlap)
            (acc ++ [(start, breakPointAt text maxSize start + 1)])
        else
          chunkSpansF text maxSize overlap fuel (stopAt text maxSize start - overlap)
            (acc ++ [(start, stopAt text maxSize start)])
      else
        some (acc ++ [(start, stopAt text maxSize start)])
    else
      some acc

/-- The trailing filter of `chunkText`: keep a chunk only when it is
non-blank after trimming. -/
def keepSpan (text : List Char) (sp : Int × Int) : Bool :=
  (jsTrim (jsSubstring text sp.1 sp.2)).length > 0

/-- The spans of the chunks `chunkText` actually returns (after the
non-blank filter). -/
def chunkSpansKept (text : List Char) (maxSize overlap fuel : Nat) :
    Option (List (Int × Int)) :=
  (chunkSpansF text maxSize overlap fuel 0 []).map
    (fun spans => spans.filter (keepSpan text))

/-- `BaseAgent.chunkText` (fuelled): the returned chunk strings. -/
def chunkTextF (text : List Char) (maxSize overlap fuel : Nat) :
    Option (List (List Char)) :=
  (chunkSpansKept text maxSize overlap fuel).map
    (fun spans => spans.map (fun sp => jsSubstring text sp.1 sp.2))

/-- Does some span of the list cover position `p`? -/
def coversPos (spans : List (Int × Int)) (p : Int) : Bool :=
  spans.any fun sp => sp.1 ≤ p && p < sp.2

/-- The retry loop of `BaseAgent.generateWithRetry`.  The generation service
is an oracle `gen` from the attempt index to that attempt's outcome.  `i` is
the source's loop counter, `left` the number of loop iterations still
allowed (`maxRetries + 1 - i`, so the loop guard `i <= maxRetries` is
`left > 0`), `last` the source's `lastError`.  The second component counts
the calls made to the generation service.  On exhaustion the source throws
`lastError || new Error('Generation failed after retries')`. -/
def retryAux (gen : Nat → Except (List Char) (List Char)) :
    Nat → Nat → Option (List Char) → Except (List Char) (List Char) × Nat
  | i, 0, last => (.error (last.getD (strL "Generation failed after retries")), i)
  | i, left + 1, _last =>
    match gen i with
    | .ok v => (.ok v, i + 1)
    | .error e => retryAux gen (i + 1) left (some e)

/-- `BaseAgent.generateWithRetry` with its call count (the loop runs
`i = 0 .. maxRetries`). -/
def generateWithRetryCnt (gen : Nat → Except (List Char) (List Char))
    (maxRetries : Nat) : Except (List Char) (List Char) × Nat :=
  retryAux gen 0 (maxRetries + 1) none

/-- A `generateWithRetry` call against a deterministic prompt-to-response
service oracle (each attempt sends the same prompt), default retry bound. -/
def retryCall (gen : List Char → Except (List Char) (List Char))
    (prompt : List Char) : Except (List Char) (List Char) :=
  (generateWithRetryCnt (fun _ => gen prompt) 2).1

/-- A concrete generation oracle for the retry witness: the first two
attempts fail, the third succeeds. -/
def genRetryWitnessOracle : Nat → Except (List Char) (List Char) :=
  fun k => if k < 2 then .error (strL "boom") else .ok (strL "done")

/-- A `\w` character: ASCII letter, digit or underscore. -/
def isWordChar (c : Char) : Bool :=
  ('a' ≤ c && c ≤ 'z') || ('A' ≤ c && c ≤ 'Z') || ('0' ≤ c && c ≤ '9') || c == '_'

/-- `text.replace(/[^\w\s]/g, ' ')`: punctuation becomes a space. -/
def replaceNonWord (c : Char) : Char :=
  if isWordChar c || isJsWs c then c else ' '

/-- JavaScript `split(/\s+/)`: each maximal whitespace run is one
delimiter, so the result can have an empty first or last segment but no
empty middle segments.  `cur` is the current segment (reversed), `inRun`
records whether the previous character belonged to a delimiter run. -/
def splitWsGo : List Char → Bool → List Char → List (List Char)
  | cur, _, [] => [cur.reverse]
  | cur, inRun, c :: cs =>
    if isJsWs c then
      if inRun then splitWsGo cur true cs
      else cur.reverse :: splitWsGo [] true cs
    else splitWsGo (c :: cur) false cs

/-- JavaScript `text.split(/\s+/)`. -/
def splitWsRuns (s : List Char) : List (List Char) := splitWsGo [] false s

/-- The stop-word set of `ContentWriter.isCommonWord`. -/
def commonWords : List (List Char) :=
  [strL "the", strL "and", strL "for", strL "are", strL "but", strL "not",
   strL "you", strL "all", strL "can", strL "had", strL "her", strL "was",
   strL "one", strL "our", strL "out", strL "day", strL "get", strL "has",
   strL "him", strL "his", strL "how", strL "its", strL "may", strL "new",
   strL "now", strL "old", strL "see", strL "two", strL "who", strL "boy",
   strL "did", strL "does", strL "from", strL "have", strL "they", strL "this",
   strL "been", strL "each", strL "like", strL "more", strL "will", strL "about",
   strL "could", strL "other", strL "after", strL "first", strL "never",
   strL "these", strL "think", strL "where", strL "being", strL "every",
   strL "great", strL "might", strL "shall", strL "still", strL "those",
   strL "under", strL "while"]

/-- `ContentWriter.isCommonWord`. -/
def isCommonWord (word : List Char) : Bool :=
  commonWords.contains (lowerL word)

/-- `ContentWriter.extractKeywords`: Korean titles are split on whitespace
and keep words longer than 1 character; other titles have punctuation
replaced by spaces, are split on whitespace, keep words longer than 2
characters that are not stop words; at most the first 5 keywords are
kept. -/
def extractKeywords (text : List Char) : List (List Char) :=
  if containsKorean text then
    ((splitWsRuns text).filter (fun word => word.length > 1)).take 5
  else
    ((((splitWsRuns (text.map replaceNonWord)).filter
        (fun word => word.length > 2)).filter
        (fun word => !isCommonWord word)).take 5)

/-- `ContentWriter.findRelevantFacts`: score every fact by the total length
of the title keywords occurring in the lowercased concatenation
`subject ⧺ ' ' ⧺ action ⧺ ' ' ⧺ details`, plus 0.01 per character of the
details, then return the top 4 facts in descending score order (stable). -/
def findRelevantFacts (sectionTitle : List Char) (allFacts : List KeyFacts) :
    List KeyFacts :=
  let sectionKeywords := extractKeywords (lowerL sectionTitle)
  let scoredFacts := allFacts.map fun fact =>
    let factText := lowerL (fact.subject ++ strL " " ++ fact.action ++ strL " " ++ fact.details)
    let score := sectionKeywords.foldl
      (fun acc keyword =>
        if occursIn keyword factText then acc + (keyword.length : ℚ) else acc) 0
    { fact with relevanceScore := some (score + (fact.details.length : ℚ) * (1/100)) }
  (sortDesc scoreKey scoredFacts).take 4

/-- The keywords of a section title as claim C8 words them, with the
non-Korean minimum word length as a parameter: for a Korean title the words
longer than 1 character, otherwise the words (after punctuation is replaced
by spaces) longer than `minLen` characters that are not stop words; at most
the first five.  The claim's "longer than 3 characters" is `minLen = 3`. -/
def specKeywords (minLen : Nat) (lowered : List Char) : List (List Char) :=
  if containsKorean lowered then
    ((splitWsRuns lowered).filter (fun word => word.length > 1)).take 5
  else
    ((splitWsRuns (lowered.map replaceNonWord)).filter
      (fun word => word.length > minLen && !isCommonWord word)).take 5

/-- The relevance matcher exactly as claim C8 words it, with the keyword
minimum length as a parameter: each keyword occurring in the lowercased
concatenation of subject, action and details contributes its own length to
the fact's score, plus 0.01 per character of the details; the top 4 facts
are returned in descending score order. -/
def findRelevantFactsSpec (minLen : Nat) (sectionTitle : List Char)
    (allFacts : List KeyFacts) : List KeyFacts :=
  let keywords := specKeywords minLen (lowerL sectionTitle)
  let scored := allFacts.map fun fact =>
    let factText := lowerL (fact.subject ++ strL " " ++ fact.action ++ strL " " ++ fact.details)
    let keywordScore : ℚ :=
      (keywords.map fun keyword =>
        if occursIn keyword factText then (keyword.length : ℚ) else 0).sum
    { fact with
      relevanceScore := some (keywordScore + (fact.details.length : ℚ) * (1/100)) }
  (sortDesc scoreKey scored).take 4

/-- Concrete facts for the C8 counterexample. -/
def cxFactDog : KeyFacts := { subject := strL "dog", action := [], details := [] }

/-- Second concrete fact for the C8 counterexample. -/
def cxFactXyz : KeyFacts := { subject := strL "xyz", action := [], details := strL "aa" }

/-- `Array.prototype.join(sep)`. -/
def joinSep (sep : List Char) : List (List Char) → List Char
  | [] => []
  | [x] => x
  | x :: y :: rest => x ++ sep ++ joinSep sep (y :: rest)

/-- Case-insensitive prefix test (ASCII lowering; the relevant patterns are
ASCII or Korean, Korean being unaffected by case). -/
def leadsWithCI : List Char → List Char → Bool
  | [], _ => true
  | _ :: _, [] => false
  | a :: as, b :: bs => a.toLower == b.toLower && leadsWithCI as bs

/-- `content.replace(/^(alt1|alt2)/i, '')`: strip the first alternative
that matches at the start, once. -/
def stripLeadAltCI (alts : List (List Char)) (s : List Char) : List Char :=
  match alts.find? (fun alt => leadsWithCI alt s) with
  | some alt => s.drop alt.length
  | none => s

/-- `replace(/^\d+\.\s*/, '')`: strip leading digits, a dot and following
whitespace, when present. -/
def stripLeadNumDot (s : List Char) : List Char :=
  let ds := s.takeWhile Char.isDigit
  if ds.length > 0 then
    match s.drop ds.length with
    | '.' :: rest => rest.dropWhile isJsWs
    | _ => s
  else s

/-- `ContentWriter.cleanSectionContent`: trim, strip a leading
`Section:`/`섹션:` label, a leading `Content:`/`내용:` label and leading
numbering, trim again. -/
def cleanSectionContent (content : List Char) : List Char :=
  jsTrim
    (stripLeadNumDot
      (stripLeadAltCI [strL "content:", strL "내용:"]
        (stripLeadAltCI [strL "section:", strL "섹션:"] (jsTrim content))))

/-- The prompt of `ContentWriter.writeSection`. -/
def writeSectionPrompt (sectionTitle : List Char) (relevantFacts : List KeyFacts) :
    List Char :=
  let factsText := joinSep (strL " ")
    ((relevantFacts.take 3).map fun f =>
      f.subject ++ strL " " ++ f.action ++ strL ". " ++ f.details)
  strL "Write a Korean paragraph for this report section.\n\nSection title: " ++
    sectionTitle ++ strL "\n\nFacts to use:\n" ++ factsText ++
    strL "\n\nWrite 2-3 sentences in formal Korean. Use ONLY the facts provided above. Do not add information not in the facts.\n\nImportant: Write in Korean language only."

/-- `ContentWriter.writeSection`, with the number of generation-service
calls as second component.  Zero facts short-circuit to the fixed
insufficient-information placeholder without any service call. -/
def writeSectionCnt (gen : List Char → Except (List Char) (List Char))
    (sectionTitle : List Char) (relevantFacts : List KeyFacts) :
    Except (List Char) (List Char) × Nat :=
  if relevantFacts.length = 0 then
    (.ok (sectionTitle ++ strL "에 대한 정보가 부족합니다."), 0)
  else
    let r := generateWithRetryCnt (fun _ => gen (writeSectionPrompt sectionTitle relevantFacts)) 2
    (r.1.map cleanSectionContent, r.2)

/-- Match the fact-label pattern `/FACT \d+:/i` at the head of the string;
on a match, return the remainder after the label. -/
def matchFactLabel (s : List Char) : Option (List Char) :=
  if leadsWithCI (strL "fact ") s then
    let rest := s.drop 5
    let ds := rest.takeWhile Char.isDigit
    if ds.length > 0 then
      match rest.drop ds.length with
      | ':' :: tail => some tail
      | _ => none
    else none
  else none

/-- `response.split(/FACT \d+:/i)`: segments between fact labels (the fuel
starts at the string's length; at least one character is consumed per step,
so the fuel never actually runs out). -/
def splitFactsGo : Nat → List Char → List Char → List (List Char)
  | _, cur, [] => [cur.reverse]
  | 0, cur, s => [cur.reverse ++ s]
  | fuel + 1, cur, c :: cs =>
    match matchFactLabel (c :: cs) with
    | some rest => cur.reverse :: splitFactsGo fuel [] rest
    | none => splitFactsGo fuel (c :: cur) cs

/-- The regex continuation `\s*(.+)`: greedily skip whitespace (newlines
included), then capture at least one character up to the end of the line,
backtracking into the whitespace run when nothing else follows. -/
def wsStarCapture : List Char → Option (List Char)
  | [] => none
  | c :: cs =>
    if isJsWs c then
      match wsStarCapture cs with
      | some r => some r
      | none =>
        if c = '\n' then none
        else some ((c :: cs).takeWhile (fun x => x ≠ '\n'))
    else some ((c :: cs).takeWhile (fun x => x ≠ '\n'))

/-- `block.match(/Label:\s*(.+)/i)`: the capture of the first occurrence of
the label (case-insensitive) whose continuation matches. -/
def findFieldAfter (label : List Char) : List Char → Option (List Char)
  | [] => none
  | c :: rest =>
    if leadsWithCI label (c :: rest) then
      match wsStarCapture ((c :: rest).drop label.length) with
      | some cap => some cap
      | none => findFieldAfter label rest
    else findFieldAfter label rest

/-- One block of `ReferenceProcessor.parseFactsFromResponse`: a fact is kept
only when all three fields match; the captures are trimmed. -/
def parseFactBlock (block : List Char) : Option KeyFacts :=
  match findFieldAfter (strL "subject:") block,
        findFieldAfter (strL "action:") block,
        findFieldAfter (strL "details:") block with
  | some s, some a, some d =>
    some { subject := jsTrim s, action := jsTrim a, details := jsTrim d }
  | _, _, _ => none

/-- `ReferenceProcessor.parseFactsFromResponse`: split on the fact labels,
drop the segment before the first label, keep the blocks with all three
fields. -/
def parseFactsFromResponse (response : List Char) : List KeyFacts :=
  ((splitFactsGo response.length [] response).drop 1).filterMap parseFactBlock

/-- The extraction prompt of `ReferenceProcessor.extractFactsFromChunk`. -/
def extractPrompt (chunk : List Char) : List Char :=
  strL "Extract key facts from this text. Focus on specific information like names, numbers, dates, and actions.\n\nText:\n" ++
    chunk ++
    strL "\n\nList facts in this format:\nFACT 1:\nSubject: [main topic/entity]\nAction: [what happened/what it does]\nDetails: [specific details, numbers, dates]\n\nFACT 2:\nSubject: [main topic/entity]\nAction: [what happened/what it does]  \nDetails: [specific details, numbers, dates]\n\nExtract 2-4 most important facts only."

/-- `ReferenceProcessor.extractFactsFromChunk`: one retried generation call,
then structured-text parsing. -/
def extractFactsFromChunk (gen : List Char → Except (List Char) (List Char))
    (chunk : List Char) : Except (List Char) (List KeyFacts) :=
  (retryCall gen (extractPrompt chunk)).map parseFactsFromResponse

/-- `chunkText(referenceText, 500, 100)` as called by
`ReferenceProcessor.processReference`.  With `maxSize = 500` and
`overlap = 100` every iteration advances `start` by at least 252, so fuel
`text.length + 1` always suffices (`chunkSpansF_500_100_total` below); the
`none` fallback is therefore never taken. -/
def chunkText500 (text : List Char) : List (List Char) :=
  match chunkSpansF text 500 100 (text.length + 1) 0 [] with
  | some spans => (spans.filter (keepSpan text)).map fun sp => jsSubstring text sp.1 sp.2
  | none => []

/-- The `try`/`catch` around one chunk in
`ReferenceProcessor.processReference`: a failed extraction contributes no
facts and processing continues. -/
def chunkFacts (gen : List Char → Except (List Char) (List Char))
    (chunk : List Char) : List KeyFacts :=
  match extractFactsFromChunk gen chunk with
  | .ok facts => facts
  | .error _ => []

/-- `ReferenceProcessor.processReference`. -/
def processReference (gen : List Char → Except (List Char) (List Char))
    (referenceText : List Char) : List KeyFacts :=
  if (jsTrim referenceText).length = 0 then []
  else
    deduplicateAndRankFacts
      ((chunkText500 referenceText).foldl (fun acc chunk => acc ++ chunkFacts gen chunk) [])

/-- An oracle transformer replacing every failing generation with an empty
successful response (whose parse is no facts at all): the behaviour claim C2
attributes to a swallowed per-chunk failure. -/
def recoverOracle (gen : List Char → Except (List Char) (List Char)) :
    List Char → Except (List Char) (List Char) :=
  fun prompt =>
    match gen prompt with
    | .ok r => .ok r
    | .error _ => .ok []

/-- An always-failing generation oracle (witness data). -/
def failOracle : List Char → Except (List Char) (List Char) :=
  fun _ => .error (strL "down")

/-- `response.split('\n')` (single-character delimiter, empties kept). -/
def splitNlGo : List Char → List Char → List (List Char)
  | cur, [] => [cur.reverse]
  | cur, c :: cs =>
    if c = '\n' then cur.reverse :: splitNlGo [] cs else splitNlGo (c :: cur) cs

/-- `response.split('\n')`. -/
def splitOnNl (s : List Char) : List (List Char) := splitNlGo [] s

/-- `replace(/^[-•]\s*/, '')`. -/
def stripLeadBullet : List Char → List Char
  | [] => []
  | c :: rest => if c = '-' || c = '•' then rest.dropWhile isJsWs else c :: rest

/-- `ContentWriter.parseOutlineResponse`: keep trimmed non-empty lines that
are not examples and contain Korean, strip numbering and bullets; with
fewer than 2 surviving lines fall back to the fixed generic outline,
otherwise keep at most 4. -/
def parseOutlineResponse (response : List Char) : List (List Char) :=
  let lines :=
    (((((splitOnNl response).map jsTrim).filter
        (fun line => line.length > 0)).filter
        (fun line => !occursIn (strL "예:") line && !occursIn (strL "Example") line)).filter
        containsKorean).map
      (fun line => stripLeadBullet (stripLeadNumDot line))
  if lines.length ≥ 2 then lines.take 4
  else [strL "개요", strL "주요 특징", strL "상세 정보"]

/-- `ContentWriter.generateReportTitle`. -/
def generateReportTitle (keyFacts : List KeyFacts) (_instruction : List Char) :
    List Char :=
  match keyFacts with
  | fact :: _ => fact.subject ++ strL " 리포트"
  | [] => strL "리포트 초안"

/-- The outline prompt of `ContentWriter.generateKoreanReportOutline`. -/
def outlinePrompt (keyFacts : List KeyFacts) (instruction : List Char) : List Char :=
  let factsText := joinSep (strL "\n")
    ((keyFacts.take 5).map fun f => strL "• " ++ f.subject ++ strL ": " ++ f.action)
  strL "Based on these key facts, create a Korean report outline:\n\nKey Facts:\n" ++
    factsText ++ strL "\n\nUser requested: " ++ instruction ++
    strL "\n\nCreate 3-4 Korean report sections that cover the main topics. \nRespond with section titles only, one per line:\n\n예: \n제품 개요\n기술적 특징  \n임상 결과\n향후 전망"

/-- `ContentWriter.generateKoreanReportOutline`. -/
def generateKoreanReportOutline (gen : List Char → Except (List Char) (List Char))
    (keyFacts : List KeyFacts) (instruction : List Char) :
    Except (List Char) ReportOutline :=
  (retryCall gen (outlinePrompt keyFacts instruction)).map fun response =>
    { title := generateReportTitle keyFacts instruction
      sections := parseOutlineResponse response }

/-- The `ReportProgress` record of `MultiTurnReportGenerator`; the progress
value is an exact rational. -/
structure ReportProgress where
  stage : List Char
  message : List Char
  progress : ℚ
  deriving DecidableEq, Repr

/-- The stage-1 progress event. -/
def evProcessing : ReportProgress :=
  { stage := strL "processing"
    message := strL "📋 참고자료에서 핵심 정보를 추출하고 있습니다..."
    progress := 10 }

/-- The stage-2 progress event. -/
def evPlanning : ReportProgress :=
  { stage := strL "planning"
    message := strL "📋 리포트 구조를 계획하고 있습니다..."
    progress := 30 }

/-- The per-section progress event: `40 + (i / totalSections) * 50`. -/
def evWriting (sectionTitle : List Char) (i totalSections : Nat) : ReportProgress :=
  { stage := strL "writing"
    message := strL "✍️ \"" ++ sectionTitle ++
      strL "\" 섹션을 작성하고 있습니다... (" ++ strL (Nat.repr (i + 1)) ++
      strL "/" ++ strL (Nat.repr totalSections) ++ strL ")"
    progress := 40 + ((i : ℚ) / (totalSections : ℚ)) * 50 }

/-- The stage-4 progress event. -/
def evFinalizing : ReportProgress :=
  { stage := strL "finalizing"
    message := strL "📄 리포트를 완성하고 있습니다..."
    progress := 90 }

/-- The terminal success event. -/
def evComplete : ReportProgress :=
  { stage := strL "complete"
    message := strL "✅ 리포트 작성이 완료되었습니다!"
    progress := 100 }

/-- The terminal error event (progress 0, message carries the error). -/
def evError (e : List Char) : ReportProgress :=
  { stage := strL "error"
    message := strL "❌ 리포트 생성 중 오류가 발생했습니다: " ++ e
    progress := 0 }

/-- The fatal error message thrown when no facts survive extraction. -/
def noFactsError : List Char := strL "참고자료에서 유용한 정보를 추출할 수 없습니다."

/-- `MultiTurnReportGenerator.combineIntoFinalReport`. -/
def combineIntoFinalReport (title : List Char) (sections : List ReportSection) :
    List Char :=
  let body := (strL "# " ++ title ++ strL "\n\n") ++
    sections.foldl
      (fun acc sec => acc ++ strL "## " ++ sec.title ++ strL "\n\n" ++ sec.content ++ strL "\n\n")
      []
  let factCount := sections.foldl (fun sum sec => sum + sec.facts.length) 0
  body ++ strL "---\n*이 리포트는 참고자료를 바탕으로 " ++ strL (Nat.repr sections.length) ++
    strL "개 섹션, " ++ strL (Nat.repr factCount) ++ strL "개 주요 사실을 활용하여 작성되었습니다.*"

/-- Stage 3 of `generateKoreanReport`: write each section in outline order,
emitting one progress event per section on entry; a failing section write
aborts the loop with the events emitted so far. -/
def writeLoop (gen : List Char → Except (List Char) (List Char))
    (keyFacts : List KeyFacts) (totalSections : Nat) :
    List (List Char) → Nat →
      Except (List Char) (List ReportSection) × List ReportProgress
  | [], _ => (.ok [], [])
  | sectionTitle :: rest, i =>
    let relevantFacts := findRelevantFacts sectionTitle keyFacts
    match (writeSectionCnt gen sectionTitle relevantFacts).1 with
    | .error e => (.error e, [evWriting sectionTitle i totalSections])
    | .ok content =>
      let r := writeLoop gen keyFacts totalSections rest (i + 1)
      (r.1.map (fun ss =>
          { title := sectionTitle, content := content, facts := relevantFacts } :: ss),
       evWriting sectionTitle i totalSections :: r.2)

/-- `MultiTurnReportGenerator.generateKoreanReport`: the outcome together
with the full sequence of progress events delivered to `onProgress` (the
surrounding `try`/`catch` emits the terminal error event and rethrows). -/
def generateKoreanReport (gen : List Char → Except (List Char) (List Char))
    (instruction referenceText : List Char) :
    Except (List Char) (List Char) × List ReportProgress :=
  let keyFacts := processReference gen referenceText
  if keyFacts.length = 0 then
    (.error noFactsError, [evProcessing, evError noFactsError])
  else
    match generateKoreanReportOutline gen keyFacts instruction with
    | .error e => (.error e, [evProcessing, evPlanning, evError e])
    | .ok outline =>
      match writeLoop gen keyFacts outline.sections.length outline.sections 0 with
      | (.error e, evs) =>
        (.error e, [evProcessing, evPlanning] ++ evs ++ [evError e])
      | (.ok sections, evs) =>
        (.ok (combineIntoFinalReport outline.title sections),
         [evProcessing, evPlanning] ++ evs ++ [evFinalizing, evComplete])

/-- A concrete fact for the C10 witness. -/
def cxFactKim : KeyFacts :=
  { subject := strL "Kim", action := strL "a", details := strL "b5" }

/-- The C10 witness fact with its attached score. -/
def cxFactKimScored : KeyFacts :=
  { cxFactKim with relevanceScore := some (calculateRelevanceScore cxFactKim) }

end GemmaNotebook

namespace GemmaNotebook

/-- **C1.** `shouldUseMultiTurn` returns `true` exactly when all four gate
conditions hold: the instruction contains a Korean-script character, the
instruction contains one of the report/draft keywords, the reference text is
longer than 800 characters, and the reference text is non-empty after
trimming whitespace. -/
theorem shouldUseMultiTurn_iff (instruction referenceText : List Char) :
    shouldUseMultiTurn instruction referenceText = true ↔
      ((∃ c ∈ instruction, isKoreanChar c = true) ∧
       (occursIn (strL "리포트") instruction = true ∨
        occursIn (strL "보고서") instruction = true ∨
        occursIn (strL "초안") instruction = true ∨
        occursIn (strL "작성") instruction = true) ∧
       referenceText.length > 800 ∧
       (jsTrim referenceText).length > 0) := by
  simp [shouldUseMultiTurn, containsKorean, List.any_eq_true,
    Bool.and_eq_true, Bool.or_eq_true, decide_eq_true_eq, or_assoc, and_assoc]

/-- Every fact list produced by the deduplication walk is pairwise
non-similar: a later accepted fact is never similar to an earlier one. -/
lemma dedupAux_pairwise (sim : KeyFacts → KeyFacts → Bool) :
    ∀ (l acc : List KeyFacts),
      acc.Pairwise (fun a b => sim b a = false) →
      (dedupAux sim acc l).Pairwise (fun a b => sim b a = false) := by
  intro l
  induction l with
  | nil => intro acc hacc; simpa [dedupAux] using hacc
  | cons fact rest ih =>
    intro acc hacc
    by_cases h : acc.any (fun existing => sim fact existing) = true
    · simpa [dedupAux, h] using ih acc hacc
    · have hfalse : ∀ e ∈ acc, sim fact e = false := by
        intro e he
        have := (List.any_eq_false).mp (Bool.eq_false_iff.mpr h) e he
        simpa using this
      have hacc' : (acc ++ [fact]).Pairwise (fun a b => sim b a = false) := by
        refine List.pairwise_append.mpr ⟨hacc, List.pairwise_singleton _ _, ?_⟩
        intro a ha b hb
        have hb' : b = fact := by simpa using hb
        subst hb'
        exact hfalse a ha
      simpa [dedupAux, h] using ih (acc ++ [fact]) hacc'

/-- On a pairwise non-similar list the deduplication walk keeps everything. -/
lemma dedupAux_eq_of_pairwise (sim : KeyFacts → KeyFacts → Bool) :
    ∀ (l acc : List KeyFacts),
      (acc ++ l).Pairwise (fun a b => sim b a = false) →
      dedupAux sim acc l = acc ++ l := by
  intro l
  induction l with
  | nil => intro acc _; simp [dedupAux]
  | cons fact rest ih =>
    intro acc hpw
    obtain ⟨-, -, hcross⟩ := List.pairwise_append.mp hpw
    have hany : acc.any (fun existing => sim fact existing) = false := by
      refine List.any_eq_false.mpr ?_
      intro e he
      simpa using hcross e he fact (by simp)
    have hassoc : acc ++ fact :: rest = (acc ++ [fact]) ++ rest := by simp
    have hpw' : ((acc ++ [fact]) ++ rest).Pairwise (fun a b => sim b a = false) := by
      rw [← hassoc]; exact hpw
    calc dedupAux sim acc (fact :: rest)
        = dedupAux sim (acc ++ [fact]) rest := by simp [dedupAux, hany]
      _ = (acc ++ [fact]) ++ rest := ih (acc ++ [fact]) hpw'
      _ = acc ++ fact :: rest := by simp

/-- **C3.** The deduplication walk (keep a fact exactly when its subject's
normalized edit-distance similarity to every already-accepted subject is at
most 0.7; first-seen instance wins) is idempotent:
`dedupFacts (dedupFacts F) = dedupFacts F` for every fact list `F`. -/
theorem dedupFacts_idempotent (facts : List KeyFacts) :
    dedupFacts (dedupFacts facts) = dedupFacts facts := by
  have hpw := dedupAux_pairwise areFactsSimilar facts [] (by simp)
  have := dedupAux_eq_of_pairwise areFactsSimilar (dedupAux areFactsSimilar [] facts) []
    (by simpa using hpw)
  simpa [dedupFacts] using this

/-- The chunking loop only ever appends to its accumulator. -/
lemma chunkSpansF_acc_subset (text : List Char) (maxSize overlap : Nat) :
    ∀ (fuel : Nat) (start : Int) (acc spans : List (Int × Int)),
      chunkSpansF text maxSize overlap fuel start acc = some spans →
      ∀ x ∈ acc, x ∈ spans := by
  intro fuel
  induction fuel with
  | zero => intro start acc spans h; simp [chunkSpansF] at h
  | succ n ih =>
    intro start acc spans h x hx
    simp only [chunkSpansF] at h
    split_ifs at h with h1 h2 h3
    · exact ih _ _ _ h x (List.mem_append_left _ hx)
    · exact ih _ _ _ h x (List.mem_append_left _ hx)
    · cases h; exact List.mem_append_left _ hx
    · cases h; exact hx

/-- Before the non-blank filter, the spans cut by the chunking loop cover
every character position from the current `start` on, with no gap. -/
lemma chunkSpansF_covers (text : List Char) (maxSize overlap : Nat) :
    ∀ (fuel : Nat) (start : Int) (acc spans : List (Int × Int)),
      chunkSpansF text maxSize overlap fuel start acc = some spans →
      ∀ p : Nat, start ≤ (p : Int) → p < text.length →
        ∃ sp ∈ spans, sp.1 ≤ (p : Int) ∧ (p : Int) < sp.2 := by
  intro fuel
  induction fuel with
  | zero => intro start acc spans h; simp [chunkSpansF] at h
  | succ n ih =>
    intro start acc spans h p hstart hp
    have hplen : (p : Int) < (text.length : Int) := by exact_mod_cast hp
    simp only [chunkSpansF] at h
    split_ifs at h with h1 h2 h3
    · by_cases hcase : (p : Int) < breakPointAt text maxSize start + 1
      · refine ⟨(start, breakPointAt text maxSize start + 1), ?_, hstart, hcase⟩
        exact chunkSpansF_acc_subset text maxSize overlap n _ _ _ h _
          (List.mem_append_right _ (by simp))
      · refine ih _ _ _ h p ?_ hp
        have : (0 : Int) ≤ (overlap : Int) := Int.ofNat_nonneg _
        omega
    · by_cases hcase : (p : Int) < stopAt text maxSize start
      · refine ⟨(start, stopAt text maxSize start), ?_, hstart, hcase⟩
        exact chunkSpansF_acc_subset text maxSize overlap n _ _ _ h _
          (List.mem_append_right _ (by simp))
      · refine ih _ _ _ h p ?_ hp
        have : (0 : Int) ≤ (overlap : Int) := Int.ofNat_nonneg _
        omega
    · cases h
      refine ⟨(start, stopAt text maxSize start), List.mem_append_right _ (by simp),
        hstart, ?_⟩
      have hmin : stopAt text maxSize start ≤ (text.length : Int) := min_le_right _ _
      unfold stopAt at h2 ⊢
      omega
    · omega

/-- **C4 (amended).** Whenever the chunking loop terminates, the spans it
cuts — *before* the trailing non-blank filter — cover every character
position of the input with no gaps.  (The returned chunks themselves may
leave gaps, because the filter drops whitespace-only chunks; see the
counterexample.) -/
theorem chunkSpans_cover_all (text : List Char) (maxSize overlap fuel : Nat)
    (spans : List (Int × Int))
    (h : chunkSpansF text maxSize overlap fuel 0 [] = some spans) :
    ∀ p : Nat, p < text.length →
      ∃ sp ∈ spans, sp.1 ≤ (p : Int) ∧ (p : Int) < sp.2 := by
  intro p hp
  exact chunkSpansF_covers text maxSize overlap fuel 0 [] spans h p
    (Int.ofNat_nonneg p) hp

/-- Witness for C4's amended theorem at a concrete input. -/
theorem chunkSpans_cover_all_witness :
    ∃ sp ∈ [((0 : Int), (2 : Int))], sp.1 ≤ ((1 : Nat) : Int) ∧ ((1 : Nat) : Int) < sp.2 :=
  chunkSpans_cover_all (strL "ab") 5 0 2 [((0 : Int), (2 : Int))] (by decide) 1 (by decide)

/-- **C4 (counterexample).** For the 7-character text `"a     b"` with
`maxSize = 3 > overlap = 0`, `chunkText` terminates and returns the chunks
`"a  "` and `"b"`: the all-whitespace middle chunk is dropped by the
trailing filter, so position 4 of the input is covered by no returned chunk
and the concatenation of the returned chunks (4 characters) cannot
reproduce the 7-character input. -/
theorem chunkText_coverage_counterexample :
    chunkTextF (strL "a     b") 3 0 10 = some [strL "a  ", strL "b"] ∧
    (strL "a     b").length = 7 ∧
    (chunkSpansKept (strL "a     b") 3 0 10).map (fun spans => coversPos spans 4)
      = some false := by
  refine ⟨by decide, by decide, by decide⟩

/-- **C5.** `chunkText` does not fail fast on `overlap ≥ maxSize`: on the
3-character text `"aaa"` with `maxSize = 2` and `overlap = 2`, the loop
re-enters the same state (`start` stays 0) forever — for every fuel bound
the loop is still running, i.e. the source loops instead of terminating
with an error. -/
theorem chunkText_overlap_ge_maxSize_loops :
    ∀ fuel : Nat, chunkTextF (strL "aaa") 2 2 fuel = none := by
  have key : ∀ (fuel : Nat) (acc : List (Int × Int)),
      chunkSpansF (strL "aaa") 2 2 fuel 0 acc = none := by
    intro fuel
    induction fuel with
    | zero => intro acc; rfl
    | succ n ih =>
      intro acc
      have hstep : chunkSpansF (strL "aaa") 2 2 (n + 1) 0 acc
          = chunkSpansF (strL "aaa") 2 2 n 0 (acc ++ [((0 : Int), (2 : Int))]) := rfl
      rw [hstep]
      exact ih _
  intro fuel
  simp [chunkTextF, chunkSpansKept, key fuel []]

/-- **C6.** With the default retry bound (`maxRetries = 2`),
`generateWithRetry` makes at most 3 service calls; if attempt `j ≤ 2`
succeeds after `j` failures, its value is returned with exactly `j + 1`
calls (no further attempts); if all 3 attempts fail, the error of the last
attempt (index 2) is the one surfaced, after exactly 3 calls. -/
theorem generateWithRetry_default_bound (gen : Nat → Except (List Char) (List Char)) :
    (generateWithRetryCnt gen 2).2 ≤ 3 ∧
    (∀ j v, j ≤ 2 → gen j = .ok v →
      (∀ k, k < j → ∃ e, gen k = .error e) →
      generateWithRetryCnt gen 2 = (.ok v, j + 1)) ∧
    (∀ e0 e1 e2, gen 0 = .error e0 → gen 1 = .error e1 → gen 2 = .error e2 →
      generateWithRetryCnt gen 2 = (.error e2, 3)) := by
  refine ⟨?_, ?_, ?_⟩
  · cases h0 : gen 0 <;> cases h1 : gen 1 <;> cases h2 : gen 2 <;>
      simp [generateWithRetryCnt, retryAux, h0, h1, h2]
  · intro j v hj hok hfail
    interval_cases j
    · simp [generateWithRetryCnt, retryAux, hok]
    · obtain ⟨e0, h0⟩ := hfail 0 (by omega)
      simp [generateWithRetryCnt, retryAux, h0, hok]
    · obtain ⟨e0, h0⟩ := hfail 0 (by omega)
      obtain ⟨e1, h1⟩ := hfail 1 (by omega)
      simp [generateWithRetryCnt, retryAux, h0, h1, hok]
  · intro e0 e1 e2 h0 h1 h2
    simp [generateWithRetryCnt, retryAux, h0, h1, h2]

/-- Witness for C6 at a concrete oracle: two failures then a success give
the successful value with exactly 3 calls. -/
theorem generateWithRetry_default_bound_witness :
    generateWithRetryCnt genRetryWitnessOracle 2 = (.ok (strL "done"), 3) :=
  (generateWithRetry_default_bound genRetryWitnessOracle).2.1 2 (strL "done")
    (by omega) rfl
    (fun k hk => by interval_cases k <;> exact ⟨strL "boom", rfl⟩)

/-- **C7.** `writeSection` on an empty fact list returns the fixed
insufficient-information placeholder for the section title and makes zero
calls to the generation service, for every title and every service
behaviour. -/
theorem writeSection_no_facts (gen : List Char → Except (List Char) (List Char))
    (sectionTitle : List Char) :
    writeSectionCnt gen sectionTitle []
      = (.ok (sectionTitle ++ strL "에 대한 정보가 부족합니다."), 0) := rfl

/-- The keyword-match folding of `findRelevantFacts` is the sum of the
lengths of the matching keywords. -/
lemma foldl_if_sum (t : List Char) :
    ∀ (kws : List (List Char)) (q : ℚ),
      kws.foldl (fun acc kw => if occursIn kw t then acc + (kw.length : ℚ) else acc) q
        = q + (kws.map fun kw => if occursIn kw t then (kw.length : ℚ) else 0).sum := by
  intro kws
  induction kws with
  | nil => intro q; simp
  | cons kw rest ih =>
    intro q
    by_cases h : occursIn kw t
    · simp [h, ih, add_assoc]
    · simp [h, ih]

/-- The source's keyword extraction is the claim's description at minimum
word length 2 (words of at least 3 characters). -/
lemma extractKeywords_eq_specKeywords (lowered : List Char) :
    extractKeywords lowered = specKeywords 2 lowered := by
  unfold extractKeywords specKeywords
  split_ifs with h
  · rfl
  · rw [List.filter_filter]
    congr 1
    apply List.filter_congr
    intro word _
    simp [Bool.and_comm]

/-- **C8 (amended).** `findRelevantFacts` behaves exactly as claim C8
describes it once the non-Korean keyword filter is read as "words longer
than 2 characters" (i.e. at least 3) rather than "longer than 3", keeping at
most the first five keywords after punctuation is replaced by spaces:
at most 4 facts, scored by the total length of the matching keywords plus
0.01 per detail character, in descending score order. -/
theorem findRelevantFacts_matches_spec (sectionTitle : List Char)
    (allFacts : List KeyFacts) :
    findRelevantFacts sectionTitle allFacts
      = findRelevantFactsSpec 2 sectionTitle allFacts := by
  unfold findRelevantFacts findRelevantFactsSpec
  rw [extractKeywords_eq_specKeywords]
  simp only []
  congr 2
  apply List.map_congr_left
  intro fact _
  have := foldl_if_sum
    (lowerL (fact.subject ++ strL " " ++ fact.action ++ strL " " ++ fact.details))
    (specKeywords 2 (lowerL sectionTitle)) 0
  simp only [zero_add] at this
  rw [this]

/-- **C8 (counterexample).** On the section title `"dog"` and two facts with
subjects `"dog"` and `"xyz"`, the source scores the `"dog"` fact 3 (the
3-character keyword `"dog"` passes the source's `length > 2` filter and
matches) and returns it first, while the claim's scoring ("only words longer
than 3 characters" become keywords) leaves no keywords, scores it 0, and
would return the `"xyz"` fact (detail bonus 0.02) first: the claimed and the
actual behaviour differ. -/
theorem findRelevantFacts_keyword_counterexample :
    (findRelevantFacts (strL "dog") [cxFactDog, cxFactXyz]).head?.map KeyFacts.subject
        = some (strL "dog") ∧
    (findRelevantFactsSpec 3 (strL "dog") [cxFactDog, cxFactXyz]).head?.map KeyFacts.subject
        = some (strL "xyz") ∧
    findRelevantFacts (strL "dog") [cxFactDog, cxFactXyz]
        ≠ findRelevantFactsSpec 3 (strL "dog") [cxFactDog, cxFactXyz] := by
  refine ⟨by with_unfolding_all decide, by with_unfolding_all decide, ?_⟩
  intro h
  have h1 : (findRelevantFacts (strL "dog") [cxFactDog, cxFactXyz]).head?.map KeyFacts.subject
      = some (strL "dog") := by with_unfolding_all decide
  have h2 : (findRelevantFactsSpec 3 (strL "dog") [cxFactDog, cxFactXyz]).head?.map KeyFacts.subject
      = some (strL "xyz") := by with_unfolding_all decide
  rw [h, h2] at h1
  exact absurd h1 (by decide)

/-- With a deterministic prompt-to-response service, the retried call
collapses to a single service outcome. -/
lemma retryCall_eq (gen : List Char → Except (List Char) (List Char))
    (prompt : List Char) : retryCall gen prompt = gen prompt := by
  unfold retryCall generateWithRetryCnt
  cases h : gen prompt <;> simp [retryAux, h]

/-- A failing chunk extraction contributes exactly what an empty successful
response would: nothing. -/
lemma chunkFacts_recover (gen : List Char → Except (List Char) (List Char))
    (chunk : List Char) :
    chunkFacts (recoverOracle gen) chunk = chunkFacts gen chunk := by
  unfold chunkFacts extractFactsFromChunk
  rw [retryCall_eq, retryCall_eq]
  unfold recoverOracle
  cases h : gen (extractPrompt chunk) with
  | ok r => simp
  | error e => simp [Except.map, parseFactsFromResponse, splitFactsGo]

/-- **C2.** Per-chunk extraction failures are swallowed: a run in which some
chunks fail is identical to one in which those chunks return an empty
(factless) response, so processing continues with the remaining chunks and
`processReference` never aborts.  But when zero facts survive in total,
`generateKoreanReport` raises the fatal no-facts error and terminates in the
error state (its outcome is that error and its last progress event has
stage `error`). -/
theorem extraction_failure_policy :
    (∀ (gen : List Char → Except (List Char) (List Char)) (referenceText : List Char),
      processReference gen referenceText
        = processReference (recoverOracle gen) referenceText) ∧
    (∀ (gen : List Char → Except (List Char) (List Char))
        (instruction referenceText : List Char),
      processReference gen referenceText = [] →
        (generateKoreanReport gen instruction referenceText).1 = .error noFactsError ∧
        ((generateKoreanReport gen instruction referenceText).2.getLast?).map
            ReportProgress.stage = some (strL "error")) := by
  constructor
  · intro gen referenceText
    unfold processReference
    have hfun : (fun (acc : List KeyFacts) chunk => acc ++ chunkFacts (recoverOracle gen) chunk)
        = fun acc chunk => acc ++ chunkFacts gen chunk := by
      funext acc chunk
      rw [chunkFacts_recover]
    rw [hfun]
  · intro gen instruction referenceText h
    simp [generateKoreanReport, h, evError]

/-- Witness for C2: an always-failing service on the reference text `"abc"`
extracts zero facts, and the report run ends in the fatal no-facts error. -/
theorem extraction_failure_policy_witness :
    (generateKoreanReport failOracle (strL "리포트") (strL "abc")).1
      = .error noFactsError :=
  (extraction_failure_policy.2 failOracle (strL "리포트") (strL "abc") (by decide)).1

/-- Membership in a stable descending insertion. -/
lemma mem_insertDesc (key : KeyFacts → ℚ) (x : KeyFacts) :
    ∀ (l : List KeyFacts) (y : KeyFacts), y ∈ insertDesc key x l ↔ y = x ∨ y ∈ l := by
  intro l
  induction l with
  | nil => intro y; simp [insertDesc]
  | cons a as ih =>
    intro y
    by_cases h : key a ≤ key x
    · simp [insertDesc, h]
    · simp only [insertDesc, if_neg h, List.mem_cons, ih]
      tauto

/-- The stable descending sort preserves membership. -/
lemma mem_sortDesc (key : KeyFacts → ℚ) :
    ∀ (l : List KeyFacts) (y : KeyFacts), y ∈ sortDesc key l ↔ y ∈ l := by
  intro l
  induction l with
  | nil => intro y; simp [sortDesc]
  | cons a as ih =>
    intro y
    simp [sortDesc, mem_insertDesc, ih]

/-- Whatever the deduplication walk keeps came from the accumulator or the
input list. -/
lemma dedupAux_mem (sim : KeyFacts → KeyFacts → Bool) :
    ∀ (l acc : List KeyFacts) (x : KeyFacts),
      x ∈ dedupAux sim acc l → x ∈ acc ∨ x ∈ l := by
  intro l
  induction l with
  | nil => intro acc x hx; simp [dedupAux] at hx; exact Or.inl hx
  | cons fact rest ih =>
    intro acc x hx
    by_cases h : acc.any (fun existing => sim fact existing) = true
    · simp only [dedupAux, if_pos h] at hx
      rcases ih acc x hx with h1 | h1
      · exact Or.inl h1
      · exact Or.inr (List.mem_cons_of_mem _ h1)
    · simp only [dedupAux, if_neg h] at hx
      rcases ih (acc ++ [fact]) x hx with h1 | h1
      · rcases List.mem_append.mp h1 with h2 | h2
        · exact Or.inl h2
        · exact Or.inr (by simpa using Or.inl (by simpa using h2))
      · exact Or.inr (List.mem_cons_of_mem _ h1)

/-- **C10.** Both rankers return freshly built fact records: every fact they
return carries the `subject`, `action` and `details` of some input fact
unchanged, with the `relevanceScore` field attached (for the global ranker,
exactly `calculateRelevanceScore` of that input fact); the input facts
themselves are values and are never modified (the embedding of both
functions is pure, mirroring the source's `{...fact}` copies). -/
theorem rankers_return_scored_copies :
    (∀ (facts : List KeyFacts) (g : KeyFacts),
      g ∈ deduplicateAndRankFacts facts →
      ∃ f ∈ facts, g.subject = f.subject ∧ g.action = f.action ∧
        g.details = f.details ∧ g.relevanceScore = some (calculateRelevanceScore f)) ∧
    (∀ (sectionTitle : List Char) (allFacts : List KeyFacts) (g : KeyFacts),
      g ∈ findRelevantFacts sectionTitle allFacts →
      ∃ f ∈ allFacts, g.subject = f.subject ∧ g.action = f.action ∧
        g.details = f.details ∧ ∃ q, g.relevanceScore = some q) := by
  constructor
  · intro facts g hg
    unfold deduplicateAndRankFacts at hg
    have h1 := List.mem_of_mem_take hg
    rw [mem_sortDesc] at h1
    obtain ⟨f, hf, rfl⟩ := List.mem_map.mp h1
    have hmem : f ∈ facts := by
      rcases dedupAux_mem areFactsSimilar facts [] f hf with h2 | h2
      · simp at h2
      · exact h2
    exact ⟨f, hmem, rfl, rfl, rfl, rfl⟩
  · intro sectionTitle allFacts g hg
    unfold findRelevantFacts at hg
    have h1 := List.mem_of_mem_take hg
    rw [mem_sortDesc] at h1
    obtain ⟨f, hf, rfl⟩ := List.mem_map.mp h1
    exact ⟨f, hf, rfl, rfl, rfl, _, rfl⟩

/-- Witness for C10: the single ranked output of the one-fact list is a copy
of the input fact with its computed score attached. -/
theorem rankers_return_scored_copies_witness :
    ∃ f ∈ [cxFactKim], cxFactKimScored.subject = f.subject ∧
      cxFactKimScored.action = f.action ∧ cxFactKimScored.details = f.details ∧
      cxFactKimScored.relevanceScore = some (calculateRelevanceScore f) :=
  rankers_return_scored_copies.1 [cxFactKim] cxFactKimScored
    (by with_unfolding_all decide)

/-- The writing-stage progress values `40 + (i / N) * 50` are monotone in
the section index. -/
lemma wprog_mono (i j N : Nat) (hij : i ≤ j) :
    (40 : ℚ) + ((i : ℚ) / (N : ℚ)) * 50 ≤ 40 + ((j : ℚ) / (N : ℚ)) * 50 := by
  rcases Nat.eq_zero_or_pos N with hN | hN
  · simp [hN]
  · have hN' : (0 : ℚ) < N := by exact_mod_cast hN
    have h1 : (i : ℚ) / N ≤ (j : ℚ) / N :=
      div_le_div_of_nonneg_right (by exact_mod_cast hij) hN'.le
    nlinarith

/-- The writing-stage progress values stay between 40 and 90 while the
index is within range. -/
lemma wprog_bounds (i N : Nat) (hiN : i < N) :
    (40 : ℚ) ≤ 40 + ((i : ℚ) / (N : ℚ)) * 50 ∧
      (40 : ℚ) + ((i : ℚ) / (N : ℚ)) * 50 ≤ 90 := by
  have hN : 0 < N := by omega
  have hN' : (0 : ℚ) < N := by exact_mod_cast hN
  have h0 : (0 : ℚ) ≤ (i : ℚ) / N := div_nonneg (by positivity) hN'.le
  have h1 : (i : ℚ) / N ≤ 1 := (div_le_one hN').mpr (by exact_mod_cast hiN.le)
  constructor <;> nlinarith

/-- The events emitted by the writing loop are non-decreasing and bounded
between the entry value of the current index and 90, as long as the index
plus the number of remaining sections stays within the total. -/
lemma writeLoop_events (gen : List Char → Except (List Char) (List Char))
    (keyFacts : List KeyFacts) (N : Nat) :
    ∀ (titles : List (List Char)) (i : Nat), i + titles.length ≤ N →
      List.Chain' (fun a b => a ≤ b)
        ((writeLoop gen keyFacts N titles i).2.map ReportProgress.progress) ∧
      ∀ q ∈ (writeLoop gen keyFacts N titles i).2.map ReportProgress.progress,
        (40 : ℚ) + ((i : ℚ) / (N : ℚ)) * 50 ≤ q ∧ q ≤ 90 := by
  intro titles
  induction titles with
  | nil => intro i _; simp [writeLoop]
  | cons t ts ih =>
    intro i hle
    have hiN : i < N := by simp at hle; omega
    cases hws : (writeSectionCnt gen t (findRelevantFacts t keyFacts)).1 with
    | error e =>
      refine ⟨?_, ?_⟩
      · simp [writeLoop, hws]
      · intro q hq
        simp [writeLoop, hws, evWriting] at hq
        subst hq
        exact ⟨le_refl _, (wprog_bounds i N hiN).2⟩
    | ok content =>
      have hle' : (i + 1) + ts.length ≤ N := by simp at hle ⊢; omega
      obtain ⟨ihChain, ihBounds⟩ := ih (i + 1) hle'
      have hevs : (writeLoop gen keyFacts N (t :: ts) i).2
          = evWriting t i N :: (writeLoop gen keyFacts N ts (i + 1)).2 := by
        simp [writeLoop, hws]
      refine ⟨?_, ?_⟩
      · rw [hevs, List.map_cons, List.chain'_cons']
        refine ⟨?_, ihChain⟩
        intro y hy
        have hymem : y ∈ (writeLoop gen keyFacts N ts (i + 1)).2.map ReportProgress.progress :=
          List.mem_of_mem_head? hy
        have := (ihBounds y hymem).1
        calc (evWriting t i N).progress
            = 40 + ((i : ℚ) / (N : ℚ)) * 50 := rfl
          _ ≤ 40 + (((i + 1 : Nat) : ℚ) / (N : ℚ)) * 50 := wprog_mono i (i + 1) N (by omega)
          _ ≤ y := this
      · intro q hq
        rw [hevs, List.map_cons] at hq
        rcases List.mem_cons.mp hq with hq | hq
        · subst hq
          exact ⟨le_refl _, (wprog_bounds i N hiN).2⟩
        · obtain ⟨hlb, hub⟩ := ihBounds q hq
          refine ⟨le_trans (wprog_mono i (i + 1) N (by omega)) ?_, hub⟩
          exact_mod_cast hlb

/-- Every writing-stage progress value is at least 30 and at most 90 (the
form needed at the junctions of the global event sequence). -/
lemma writeLoop_events_30_90 (gen : List Char → Except (List Char) (List Char))
    (keyFacts : List KeyFacts) (N : Nat) (titles : List (List Char))
    (h : titles.length ≤ N) :
    ∀ q ∈ (writeLoop gen keyFacts N titles 0).2.map ReportProgress.progress,
      (30 : ℚ) ≤ q ∧ q ≤ 90 := by
  intro q hq
  obtain ⟨hlb, hub⟩ := (writeLoop_events gen keyFacts N titles 0 (by omega)).2 q hq
  refine ⟨le_trans ?_ hlb, hub⟩
  simp
  norm_num

/-- With the pipeline's parameters `maxSize = 500`, `overlap = 100`, every
iteration of the chunking loop advances `start` by at least 252, so fuel
`text.length + 1` always suffices: the `none` fallback inside
`chunkText500` is never taken and the embedding agrees with the
always-terminating source loop at these parameters. -/
theorem chunkSpansF_500_100_total (text : List Char) :
    ∃ spans, chunkSpansF text 500 100 (text.length + 1) 0 [] = some spans := by
  have key : ∀ (fuel : Nat) (start : Int) (acc : List (Int × Int)),
      ((text.length : Int) - start).toNat < fuel →
      ∃ spans, chunkSpansF text 500 100 fuel start acc = some spans := by
    intro fuel
    induction fuel with
    | zero => intro start acc h; omega
    | succ n ih =>
      intro start acc h
      by_cases h1 : start < (text.length : Int)
      · by_cases h2 : stopAt text 500 start < (text.length : Int)
        · by_cases h3 : 10 * breakPointAt text 500 start > 10 * start + 7 * (500 : Int)
          · obtain ⟨spans, hs⟩ := ih (breakPointAt text 500 start + 1 - 100)
              (acc ++ [(start, breakPointAt text 500 start + 1)]) (by omega)
            refine ⟨spans, by simp [chunkSpansF, h1, h2, h3, hs]; intro hc; exact absurd hc (by omega)⟩
          · have hstop : stopAt text 500 start = start + 500 := by
              unfold stopAt at h2 ⊢
              omega
            obtain ⟨spans, hs⟩ := ih (stopAt text 500 start - 100)
              (acc ++ [(start, stopAt text 500 start)]) (by rw [hstop]; omega)
            refine ⟨spans, by simp [chunkSpansF, h1, h2, h3, hs]; intro hc; exact absurd hc (by omega)⟩
        · exact ⟨acc ++ [(start, stopAt text 500 start)], by simp [chunkSpansF, h1, h2]⟩
      · exact ⟨acc, by simp [chunkSpansF, h1]⟩
  exact key (text.length + 1) 0 [] (by omega)

/-- **C9.** In every run of `generateKoreanReport`, the progress values of
the events delivered to `onProgress`, excluding the terminal event, are
non-decreasing; on success the terminal event has stage `complete` and
progress exactly 100, and on failure the terminal event is the error
event. -/
theorem progress_events_monotone_terminal
    (gen : List Char → Except (List Char) (List Char))
    (instruction referenceText : List Char) :
    List.Chain' (fun a b => a ≤ b)
      ((generateKoreanReport gen instruction referenceText).2.dropLast.map
        ReportProgress.progress) ∧
    (((∃ r, (generateKoreanReport gen instruction referenceText).1 = .ok r) ∧
      (∃ l, (generateKoreanReport gen instruction referenceText).2.getLast? = some l ∧
        l.stage = strL "complete" ∧ l.progress = 100)) ∨
     ((∃ e, (generateKoreanReport gen instruction referenceText).1 = .error e) ∧
      (∃ l, (generateKoreanReport gen instruction referenceText).2.getLast? = some l ∧
        l.stage = strL "error"))) := by
  by_cases hkf : (processReference gen referenceText).length = 0
  · refine ⟨?_, Or.inr ⟨⟨noFactsError, ?_⟩, evError noFactsError, ?_, rfl⟩⟩
    · simp [generateKoreanReport, hkf]
    · simp [generateKoreanReport, hkf]
    · simp [generateKoreanReport, hkf]
  · cases hout : generateKoreanReportOutline gen (processReference gen referenceText)
        instruction with
    | error e =>
      refine ⟨?_, Or.inr ⟨⟨e, ?_⟩, evError e, ?_, rfl⟩⟩
      · simp [generateKoreanReport, hkf, hout, evProcessing, evPlanning]
        norm_num
      · simp [generateKoreanReport, hkf, hout]
      · simp [generateKoreanReport, hkf, hout]
    | ok outline =>
      have hwle := writeLoop_events gen (processReference gen referenceText)
        outline.sections.length outline.sections 0 (by omega)
      have hwl30 := writeLoop_events_30_90 gen (processReference gen referenceText)
        outline.sections.length outline.sections (le_refl _)
      cases hwl : writeLoop gen (processReference gen referenceText)
          outline.sections.length outline.sections 0 with
      | mk res evs =>
        rw [hwl] at hwle hwl30
        obtain ⟨hChain, -⟩ := hwle
        cases res with
        | error e =>
          have hp1 : (generateKoreanReport gen instruction referenceText).1
              = .error e := by
            simp [generateKoreanReport, hkf, hout, hwl]
          have hp2 : (generateKoreanReport gen instruction referenceText).2
              = [evProcessing, evPlanning] ++ evs ++ [evError e] := by
            simp [generateKoreanReport, hkf, hout, hwl]
          refine ⟨?_, Or.inr ⟨⟨e, hp1⟩, evError e, ?_, rfl⟩⟩
          · rw [hp2]
            have hd : ([evProcessing, evPlanning] ++ evs ++ [evError e]).dropLast
                = [evProcessing, evPlanning] ++ evs := by
              rw [List.dropLast_concat]
            rw [hd, List.map_append, List.chain'_append]
            refine ⟨?_, hChain, ?_⟩
            · simp [evProcessing, evPlanning]
              norm_num
            · intro x hx y hy
              have hx' : x = (30 : ℚ) := by
                simp [evProcessing, evPlanning] at hx
                exact hx.symm
              subst hx'
              exact (hwl30 y (List.mem_of_mem_head? hy)).1
          · rw [hp2, List.getLast?_concat]
        | ok sections =>
          have hp1 : (generateKoreanReport gen instruction referenceText).1
              = .ok (combineIntoFinalReport outline.title sections) := by
            simp [generateKoreanReport, hkf, hout, hwl]
          have hp2 : (generateKoreanReport gen instruction referenceText).2
              = [evProcessing, evPlanning] ++ evs ++ [evFinalizing, evComplete] := by
            simp [generateKoreanReport, hkf, hout, hwl]
          have hsplit : [evProcessing, evPlanning] ++ evs ++ [evFinalizing, evComplete]
              = ([evProcessing, evPlanning] ++ (evs ++ [evFinalizing])) ++ [evComplete] := by
            simp
          refine ⟨?_, Or.inl ⟨⟨_, hp1⟩, evComplete, ?_, rfl, rfl⟩⟩
          · rw [hp2, hsplit, List.dropLast_concat, List.map_append, List.chain'_append]
            refine ⟨?_, ?_, ?_⟩
            · simp [evProcessing, evPlanning]
              norm_num
            · rw [List.map_append, List.chain'_append]
              refine ⟨hChain, List.chain'_singleton _, ?_⟩
              intro x hx y hy
              have hy' : y = evFinalizing.progress := by
                simp at hy
                exact hy.symm
              subst hy'
              exact le_trans (hwl30 x (List.mem_of_mem_getLast? hx)).2
                (by norm_num [evFinalizing])
            · intro x hx y hy
              have hx' : x = (30 : ℚ) := by
                simp [evProcessing, evPlanning] at hx
                exact hx.symm
              subst hx'
              have hy' : y ∈ evs.map ReportProgress.progress ++ [evFinalizing.progress] :=
                List.mem_of_mem_head? (by simpa using hy)
              rcases List.mem_append.mp hy' with hy2 | hy2
              · exact (hwl30 y hy2).1
              · simp at hy2
                subst hy2
                norm_num [evFinalizing]
          · rw [hp2, hsplit, List.getLast?_concat]

end GemmaNotebook
